import Mathlib

/-!
Verification of the Q-learning trading bot core (`rl_agent.py`, `bot.py`,
`config.py`) against its natural-language specification.

Modelling conventions:
* Python floats are modelled as rationals (`ℚ`); the properties checked here
  are exact-arithmetic properties of the update formulas, not float-rounding
  facts.
* `np.round(x, 2)` is modelled by scaling by 100 and rounding half-to-even
  (NumPy's documented tie rule), then dividing by 100.
* The Q-table (a Python dict keyed by rounded state tuples) is modelled as an
  association list from state keys to rows (lists of rationals).
* Values that pandas/NumPy would render as NaN/undefined are modelled with
  `Option`: `none` stands for NaN.
-/

set_option autoImplicit false

namespace TradingBot

/-- The 7-component state vector
`[short_ma, long_ma, position, momentum, rsi, volatility, time_of_day]`
built by `bot.py` (`trading_strategy` line 204, `backtest` line 39). -/
structure StateVec where
  shortMa : ℚ
  longMa : ℚ
  positionSign : ℚ
  momentum : ℚ
  rsi : ℚ
  volatility : ℚ
  timeOfDay : ℚ
  deriving DecidableEq, Repr

/-- Round a rational to the nearest integer, ties to even — the tie rule of
`np.round`. -/
def roundHalfEven (q : ℚ) : ℤ :=
  let f := ⌊q⌋
  let r := q - f
  if r < 1/2 then f
  else if 1/2 < r then f + 1
  else if Even f then f else f + 1

/-- `np.round(x, 2)`: round to 2 decimal places. -/
def round2 (q : ℚ) : ℚ := (roundHalfEven (q * 100) : ℚ) / 100

/-- `QLearningAgent.get_state_key` (rl_agent.py line 22-23):
`tuple(np.round(state, 2))` — componentwise rounding to 2 decimals. -/
def get_state_key (s : StateVec) : StateVec :=
  { shortMa := round2 s.shortMa
    longMa := round2 s.longMa
    positionSign := round2 s.positionSign
    momentum := round2 s.momentum
    rsi := round2 s.rsi
    volatility := round2 s.volatility
    timeOfDay := round2 s.timeOfDay }

/-- A transition `(state, action, reward, next_state, done)` as stored in the
replay buffer (rl_agent.py line 35). -/
structure Transition where
  state : StateVec
  action : ℕ
  reward : ℚ
  nextState : StateVec
  done : Bool
  deriving DecidableEq, Repr

/-- The Q-table: Python dict mapping state keys to `np.zeros(action_size)`
rows, modelled as an association list. -/
abbrev QTable := List (StateVec × List ℚ)

/-- Dict lookup `q_table[key]` / `key in q_table`. -/
def qLookup (q : QTable) (k : StateVec) : Option (List ℚ) :=
  match q with
  | [] => none
  | (k2, row) :: rest => if k2 = k then some row else qLookup rest k

/-- `if key not in q_table: q_table[key] = np.zeros(action_size)`
(rl_agent.py lines 49-52). -/
def qInit (q : QTable) (k : StateVec) (n : ℕ) : QTable :=
  match qLookup q k with
  | some _ => q
  | none => (k, List.replicate n 0) :: q

/-- In-place assignment `q_table[key][a] = v`. -/
def qSet (q : QTable) (k : StateVec) (a : ℕ) (v : ℚ) : QTable :=
  match q with
  | [] => []
  | (k2, row) :: rest =>
    if k2 = k then (k2, row.set a v) :: rest else (k2, row) :: qSet rest k a v

/-- The row for `k`, defaulting to the zero row (only used where the key is
guaranteed present). -/
def qRow (q : QTable) (k : StateVec) (n : ℕ) : List ℚ :=
  (qLookup q k).getD (List.replicate n 0)

/-- `np.max` of a row (rows are nonempty in this system: `action_size = 3`). -/
def rowMax : List ℚ → ℚ
  | [] => 0
  | [x] => x
  | x :: y :: t => max x (rowMax (y :: t))

/-- `np.argmax` of a row: index of the first occurrence of the maximum. -/
def argmaxIdx : List ℚ → ℕ
  | [] => 0
  | [_] => 0
  | x :: y :: t => if x < rowMax (y :: t) then argmaxIdx (y :: t) + 1 else 0

/-- One iteration of the minibatch loop in `QLearningAgent.replay_train`
(rl_agent.py lines 46-56): zero-initialise the rows for the state key and the
next-state key if absent, compute `target = reward` (plus
`gamma * max(q_table[next_key])` when not done), and add
`alpha * (target - q_table[key][action])` to the entry. -/
def tdUpdateOne (alpha gamma : ℚ) (actionSize : ℕ) (q : QTable) (t : Transition) : QTable :=
  let sk := get_state_key t.state
  let nk := get_state_key t.nextState
  let q2 := qInit (qInit q sk actionSize) nk actionSize
  let old := (qRow q2 sk actionSize).getD t.action 0
  let targ :=
    if t.done then t.reward
    else t.reward + gamma * rowMax (qRow q2 nk actionSize)
  qSet q2 sk t.action (old + alpha * (targ - old))

/-- `QLearningAgent.replay_train` (rl_agent.py lines 42-56). The uniform
random sample drawn by `random.sample` is passed in explicitly as `minibatch`;
if the buffer is smaller than `batch_size` the table is left unchanged. -/
def replay_train (alpha gamma : ℚ) (actionSize batchSize : ℕ)
    (buffer : List Transition) (minibatch : List Transition) (q : QTable) : QTable :=
  if buffer.length < batchSize then q
  else minibatch.foldl (tdUpdateOne alpha gamma actionSize) q

/-- The buffer append in `QLearningAgent.remember` (rl_agent.py lines 33-35):
`if len(buffer) >= capacity: buffer.pop(0)` then `buffer.append(t)`. -/
def pushTransition (cap : ℕ) (buf : List Transition) (t : Transition) : List Transition :=
  (if cap ≤ buf.length then buf.drop 1 else buf) ++ [t]

/-- The epsilon decay in `QLearningAgent.remember` (rl_agent.py lines 39-40):
`if epsilon > epsilon_min: epsilon *= epsilon_decay`. -/
def decayEpsilon (epsMin decay eps : ℚ) : ℚ :=
  if epsMin < eps then eps * decay else eps

/-- The mutable agent state touched by `remember`. -/
structure AgentState where
  qTable : QTable
  replayBuffer : List Transition
  epsilon : ℚ
  deriving Repr

/-- The immutable hyperparameters of `QLearningAgent.__init__`. -/
structure Hyper where
  alpha : ℚ
  gamma : ℚ
  epsilonMin : ℚ
  epsilonDecay : ℚ
  replayCapacity : ℕ
  batchSize : ℕ
  actionSize : ℕ
  deriving Repr

/-- `QLearningAgent.remember` (rl_agent.py lines 31-40): push the transition
into the replay buffer with FIFO eviction, run `replay_train` (whose random
minibatch is passed in explicitly), then decay epsilon. -/
def remember (p : Hyper) (minibatch : List Transition) (st : AgentState)
    (t : Transition) : AgentState :=
  let buf := pushTransition p.replayCapacity st.replayBuffer t
  { qTable := replay_train p.alpha p.gamma p.actionSize p.batchSize buf minibatch st.qTable
    replayBuffer := buf
    epsilon := decayEpsilon p.epsilonMin p.epsilonDecay st.epsilon }

/-- `QLearningAgent.act` (rl_agent.py lines 25-29). The draw of
`np.random.rand()` (a float in `[0,1)`, `0.0` included) and the action that
`random.randrange(action_size)` would return are passed in explicitly as
`r` and `fallback`. -/
def act (epsilon r : ℚ) (q : QTable) (s : StateVec) (fallback : ℕ) : ℕ :=
  if r ≤ epsilon ∨ qLookup q (get_state_key s) = none then fallback
  else argmaxIdx ((qLookup q (get_state_key s)).getD [])

/-! ### Persistence (`QLearningAgent.save` / `load` / `__init__`) -/

/-- The filesystem seen by `load`: serialized tables indexed by path. -/
abbrev FileSystem := String → Option QTable

/-- Default of the `versioned` parameter of `save` (rl_agent.py line 58). -/
def save_default_versioned : Bool := true

/-- Default of the `versioned` parameter of `load` (rl_agent.py line 68). -/
def load_default_versioned : Bool := false

/-- Python's `str.replace(pat, rep)`: replace occurrences of `pat`
left-to-right, non-overlapping. (Python's behaviour for an empty pattern —
inserting `rep` between characters — is not modelled; the pattern used by
`save` is the nonempty `".pkl"`.) -/
def pyReplace (pat rep : List Char) : List Char → List Char
  | [] => []
  | c :: rest =>
    if h : pat ≠ [] ∧ (c :: rest).take pat.length = pat then
      rep ++ pyReplace pat rep ((c :: rest).drop pat.length)
    else
      c :: pyReplace pat rep rest
termination_by l => l.length
decreasing_by
  · simp only [List.length_drop, List.length_cons]
    have : 1 ≤ pat.length := List.length_pos.mpr h.1
    omega
  · simp

/-- The path `save` writes to (rl_agent.py lines 59-64):
`model_path.replace('.pkl', '_{ts}.pkl')` when versioned, else `model_path`. -/
def savePath (modelPath ts : String) (versioned : Bool) : String :=
  if versioned then ⟨pyReplace ".pkl".data ("_" ++ ts ++ ".pkl").data modelPath.data⟩
  else modelPath

/-- `QLearningAgent.load` (rl_agent.py lines 68-78). `versionedFiles` is the
sorted `glob` listing of timestamp-suffixed snapshots (consulted only when
`versioned` is true); if the chosen path does not exist the current table is
kept. -/
def load (fs : FileSystem) (modelPath : String) (versionedFiles : List String)
    (versioned : Bool) (qTable : QTable) : QTable :=
  let path :=
    if versioned then
      match versionedFiles.getLast? with
      | some p => p
      | none => modelPath
    else modelPath
  match fs path with
  | some t => t
  | none => qTable

/-- The table held by a freshly constructed `QLearningAgent`
(rl_agent.py lines 16 and 20): `q_table = {}` then `self.load()`, with
`versioned` left at its default `False`. -/
def initQTable (fs : FileSystem) (modelPath : String)
    (versionedFiles : List String) : QTable :=
  load fs modelPath versionedFiles load_default_versioned []

/-! ### Bot configuration (`config.py`) -/

/-- `config.STOP_LOSS_PERCENTAGE = 0.02`. -/
def STOP_LOSS_PERCENTAGE : ℚ := 2/100

/-- `config.TAKE_PROFIT_PERCENTAGE = 0.05`. -/
def TAKE_PROFIT_PERCENTAGE : ℚ := 5/100

/-- `config.MAX_POSITION_SIZE = 100`. -/
def MAX_POSITION_SIZE : ℤ := 100

/-! ### The decision loop (`bot.py`) -/

/-- Python's `int()` conversion of a float: truncation toward zero. -/
def pyInt (q : ℚ) : ℤ := if 0 ≤ q then ⌊q⌋ else ⌈q⌉

/-- The state vector construction of `bot.py` (identical at `trading_strategy`
line 204 and `backtest` line 39): the third component is the raw `position`
value used by the path. -/
def mkStateVec (shortMa longMa : ℚ) (position : ℤ)
    (momentum rsi volatility timeOfDay : ℚ) : StateVec :=
  { shortMa := shortMa
    longMa := longMa
    positionSign := (position : ℚ)
    momentum := momentum
    rsi := rsi
    volatility := volatility
    timeOfDay := timeOfDay }

/-- Result of one live tick: the reward accumulated for the tick, the
`self.entry_price` after the tick, and whether `agent.remember` was called. -/
structure TickResult where
  reward : ℚ
  entryAfter : Option ℚ
  remembered : Bool
  deriving DecidableEq, Repr

/-- The per-tick reward/position logic of `AlpacaTradingBot.trading_strategy`
(bot.py lines 209-283). Inputs that the code obtains from external
collaborators (broker position, account cash, latest close, the agent's
sampled action) are parameters. Mirrors the code exactly: the stop-loss /
take-profit check (lines 228-242), the buy/sell/hold branch (lines 245-262),
the penalty accumulation `reward += inactivity + holding + overtrade`
(line 265), and the learning trigger `action == 'sell' and prev_entry_price
is not None` (line 281). Actions are coded 0 = hold, 1 = buy, 2 = sell. -/
def trading_strategy_tick (stopPct takePct : ℚ) (maxPos : ℤ)
    (position : ℤ) (entry : Option ℚ) (price : ℚ) (action : ℕ)
    (cash : ℚ) : TickResult :=
  let qty : ℤ := min maxPos (pyInt (cash / price))
  let inactivity : ℚ := -(1/100)
  let overtrade : ℚ := if action = 1 ∨ action = 2 then -(1/20) else 0
  let remembered : Bool := (action == 2) && entry.isSome
  let slTpReward : Option ℚ :=
    match entry with
    | some e =>
      if 0 < position then
        if price ≤ e * (1 - stopPct) then some ((price - e) * |(position : ℚ)|)
        else if e * (1 + takePct) ≤ price then some ((price - e) * |(position : ℚ)|)
        else none
      else none
    | none => none
  match slTpReward with
  | some r0 =>
    { reward := r0 + inactivity + 0 + overtrade
      entryAfter := none
      remembered := remembered }
  | none =>
    if action = 1 ∧ 0 < qty ∧ position ≤ 0 then
      if qty ≤ maxPos then
        { reward := 0 + inactivity + 0 + overtrade
          entryAfter := some price
          remembered := remembered }
      else
        { reward := 0 + inactivity + 0 + overtrade
          entryAfter := entry
          remembered := remembered }
    else if action = 2 ∧ 0 < position then
      { reward :=
          (match entry with
           | some e => (price - e) * |(position : ℚ)|
           | none => 0) + inactivity + 0 + overtrade
        entryAfter := none
        remembered := remembered }
    else
      let holding : ℚ :=
        match entry with
        | some e => if 0 < position ∧ price < e then -|price - e| * (1/10) else 0
        | none => 0
      { reward := 0 + inactivity + holding + overtrade
        entryAfter := entry
        remembered := remembered }

/-- Result of one backtest iteration. -/
structure BtStep where
  position : ℤ
  entry : Option ℚ
  reward : ℚ
  remembered : Bool
  deriving DecidableEq, Repr

/-- One iteration of `AlpacaTradingBot.backtest` (bot.py lines 42-65):
simulated buy/sell on the local `position`/`entry_price`, holding penalty on
the post-action position, penalty accumulation (line 60), and the learning
trigger `action == 'sell' and prev_entry_price is not None` (line 64).
The `none` arm of the sell-reward match is unreachable in runs started flat
(a positive position always carries an entry price). -/
def backtestStep (position : ℤ) (entry : Option ℚ) (price : ℚ)
    (action : ℕ) : BtStep :=
  let inactivity : ℚ := -(1/100)
  let overtrade : ℚ := if action = 1 ∨ action = 2 then -(1/20) else 0
  let remembered : Bool := (action == 2) && entry.isSome
  let step : ℤ × Option ℚ × ℚ :=
    if action = 1 ∧ position ≤ 0 then (1, some price, 0)
    else if action = 2 ∧ 0 < position then
      (0, none,
       match entry with
       | some e => (price - e) * |(position : ℚ)|
       | none => 0)
    else (position, entry, 0)
  let holding : ℚ :=
    match step.2.1 with
    | some e => if 0 < step.1 ∧ price < e then -|price - e| * (1/10) else 0
    | none => 0
  { position := step.1
    entry := step.2.1
    reward := step.2.2 + inactivity + holding + overtrade
    remembered := remembered }

/-- The `(position, entry_price)` pair after one backtest iteration. -/
def btFold (pe : ℤ × Option ℚ) (t : ℚ × ℕ) : ℤ × Option ℚ :=
  ((backtestStep pe.1 pe.2 t.1 t.2).position, (backtestStep pe.1 pe.2 t.1 t.2).entry)

/-- The `(position, entry_price)` pair threaded through `backtest`'s loop,
starting from `position = 0`, `entry_price = None` (bot.py lines 26-27),
after consuming a list of `(close, action)` ticks. -/
def backtestRun (ticks : List (ℚ × ℕ)) : ℤ × Option ℚ :=
  ticks.foldl btFold ((0 : ℤ), (none : Option ℚ))

/-! ### Volatility (`AlpacaTradingBot.calculate_volatility`) -/

/-- `data['close'].pct_change()`: the first entry is undefined (NaN, modelled
as `none`); entry `i > 0` is `(close[i] - close[i-1]) / close[i-1]`
(undefined when the previous close is `0`). -/
def pct_change : List ℚ → List (Option ℚ)
  | [] => []
  | c :: rest =>
    none ::
      (c :: rest).zipWith
        (fun prev curr => if prev = 0 then none else some ((curr - prev) / prev))
        rest

/-- Sample variance with `ddof = 1` — the square of the pandas `std`. -/
def sampleVariance (l : List ℚ) : ℚ :=
  let n : ℚ := l.length
  let m : ℚ := l.sum / n
  ((l.map fun x => (x - m) ^ 2).sum) / (n - 1)

/-- Collapse a window to `some` values iff no entry is NaN. -/
def seqOptions : List (Option ℚ) → Option (List ℚ)
  | [] => some []
  | none :: _ => none
  | some x :: rest => (seqOptions rest).map (fun l => x :: l)

/-- `series.rolling(window=w).std().iloc[-1]` with the pandas default
`min_periods = w` and `ddof = 1`: NaN (`none`) unless the last `w` entries of
the series all exist; otherwise the sample standard deviation of those `w`
entries. The payload carried here is the *square* of the std (the sample
variance): taking the square root preserves definedness, and the claims
checked below concern only whether the result is NaN. -/
def rollingStdSqLast (w : ℕ) (l : List (Option ℚ)) : Option ℚ :=
  if l.length < w then none
  else
    match seqOptions (l.drop (l.length - w)) with
    | some vals => some (sampleVariance vals)
    | none => none

/-- `AlpacaTradingBot.calculate_volatility` (bot.py lines 84-87):
`0.0` when the history has fewer than `window` rows, otherwise
`data['close'].pct_change().rolling(window).std().iloc[-1]`.
`none` models a NaN result; a `some` payload is the squared std. -/
def calculate_volatility (window : ℕ) (closes : List ℚ) : Option ℚ :=
  if closes.length < window then some 0
  else rollingStdSqLast window (pct_change closes)

/-! ## Helper lemmas -/

theorem qLookup_qInit_self (q : QTable) (k : StateVec) (n : ℕ) :
    qLookup (qInit q k n) k = some ((qLookup q k).getD (List.replicate n 0)) := by
  unfold qInit
  cases h : qLookup q k with
  | some row => simp [h]
  | none => simp [qLookup, h]

theorem qLookup_qInit_of_some (q : QTable) (k k2 : StateVec) (n : ℕ) (row : List ℚ)
    (h : qLookup q k = some row) : qLookup (qInit q k2 n) k = some row := by
  unfold qInit
  cases h2 : qLookup q k2 with
  | some r => exact h
  | none =>
    have hne : k2 ≠ k := by
      rintro rfl
      rw [h] at h2
      exact Option.noConfusion h2
    simpa [qLookup, hne] using h

theorem qLookup_qSet_self (q : QTable) (k : StateVec) (a : ℕ) (v : ℚ) (row : List ℚ)
    (h : qLookup q k = some row) :
    qLookup (qSet q k a v) k = some (row.set a v) := by
  induction q with
  | nil => simp [qLookup] at h
  | cons hd tl ih =>
    obtain ⟨k2, r⟩ := hd
    by_cases hk : k2 = k
    · subst hk
      simp only [qLookup, if_true, eq_self_iff_true, Option.some.injEq] at h
      subst h
      simp [qSet, qLookup]
    · simp only [qLookup, if_neg hk] at h
      simp [qSet, qLookup, hk, ih h]

theorem getD_set_self (l : List ℚ) (a : ℕ) (v : ℚ) (h : a < l.length) :
    (l.set a v).getD a 0 = v := by
  rw [List.getD_eq_getElem?_getD, List.getElem?_eq_getElem (by simpa using h)]
  simp

/-- The length of the row held for `k` after zero-initialisation, assuming all
existing rows have length `n` (the `np.zeros(action_size)` invariant). -/
theorem qInit_row_length (q : QTable) (k : StateVec) (n : ℕ)
    (hwf : ∀ k2 row, qLookup q k2 = some row → row.length = n) :
    ((qLookup q k).getD (List.replicate n 0)).length = n := by
  cases h : qLookup q k with
  | some row => simpa using hwf k row h
  | none => simp

/-! ## C1 — TD update formula -/

/-- C1. For every transition `(s, a, r, s', done)` processed by the learning
step, the value-table entry for `(s, a)` is updated to `old + alpha*(r - old)`
when `done` is true, and to `old + alpha*(r + gamma*max(ValueTable[s']) - old)`
when `done` is false, where the rows for `s` and `s'` are zero-initialised
before use if absent (`old` and the row maximum are read from the
zero-initialised table `q2`). The hypothesis `hwf` is the table invariant that
every stored row has length `action_size` (rows are only ever created as
`np.zeros(action_size)`). -/
theorem C1_td_update (alpha gamma : ℚ) (n : ℕ) (q : QTable) (t : Transition)
    (hwf : ∀ k row, qLookup q k = some row → row.length = n)
    (ha : t.action < n) :
    (qRow (tdUpdateOne alpha gamma n q t) (get_state_key t.state) n).getD t.action 0 =
      (fun q2 =>
        (fun old =>
          if t.done then old + alpha * (t.reward - old)
          else old + alpha * ((t.reward + gamma * rowMax (qRow q2 (get_state_key t.nextState) n)) - old))
          ((qRow q2 (get_state_key t.state) n).getD t.action 0))
        (qInit (qInit q (get_state_key t.state) n) (get_state_key t.nextState) n) := by
  set sk := get_state_key t.state with hsk
  set nk := get_state_key t.nextState with hnk
  set q2 := qInit (qInit q sk n) nk n with hq2
  set row := (qLookup q sk).getD (List.replicate n 0) with hrow
  have h1 : qLookup (qInit q sk n) sk = some row := qLookup_qInit_self q sk n
  have h2 : qLookup q2 sk = some row := qLookup_qInit_of_some _ sk nk n row h1
  have hlen : row.length = n := qInit_row_length q sk n hwf
  have hrowq2 : qRow q2 sk n = row := by simp [qRow, h2]
  set old := row.getD t.action 0 with hold
  set targ :=
    (if t.done then t.reward else t.reward + gamma * rowMax (qRow q2 nk n)) with htarg
  have hupd : tdUpdateOne alpha gamma n q t = qSet q2 sk t.action (old + alpha * (targ - old)) := by
    simp only [tdUpdateOne, ← hsk, ← hnk, ← hq2, hrowq2, ← hold, ← htarg]
  have h3 : qLookup (qSet q2 sk t.action (old + alpha * (targ - old))) sk =
      some (row.set t.action (old + alpha * (targ - old))) :=
    qLookup_qSet_self q2 sk t.action _ row h2
  rw [hupd]
  simp only [qRow, h3, Option.getD_some]
  rw [getD_set_self row t.action _ (by rw [hlen]; exact ha)]
  simp only [h2, Option.getD_some, ← hold]
  simp only [qRow] at htarg
  cases hd : t.done <;> simp [htarg, hd]

/-- Witness for C1 at a concrete input: empty table, transition with
`done = false`, `alpha = 1/10`, `gamma = 19/20`, action 1 of 3. -/
theorem C1_td_update_witness :
    (qRow
        (tdUpdateOne (1/10) (19/20) 3 []
          { state := ⟨0,0,0,0,0,0,0⟩, action := 1, reward := 5,
            nextState := ⟨0,0,0,0,0,0,0⟩, done := false })
        (get_state_key (⟨0,0,0,0,0,0,0⟩ : StateVec)) 3).getD 1 0 =
      (fun q2 =>
        (fun old =>
          old + (1/10) * ((5 + (19/20) * rowMax (qRow q2 (get_state_key (⟨0,0,0,0,0,0,0⟩ : StateVec)) 3)) - old))
          ((qRow q2 (get_state_key (⟨0,0,0,0,0,0,0⟩ : StateVec)) 3).getD 1 0))
        (qInit (qInit [] (get_state_key (⟨0,0,0,0,0,0,0⟩ : StateVec)) 3)
          (get_state_key (⟨0,0,0,0,0,0,0⟩ : StateVec)) 3) := by
  have h := C1_td_update (1/10) (19/20) 3 []
    { state := ⟨0,0,0,0,0,0,0⟩, action := 1, reward := 5,
      nextState := ⟨0,0,0,0,0,0,0⟩, done := false }
    (by intro k row h; simp [qLookup] at h) (by norm_num)
  exact h

/-! ## C3 — epsilon decay -/

/-- Example hyperparameters: the values of `config.py` (`alpha` 0.1, `gamma`
0.95, `epsilon_min` 0.01, `epsilon_decay` 0.995, capacity 1000, batch size 32,
3 actions). -/
def egHyper : Hyper := ⟨1/10, 19/20, 1/100, 199/200, 1000, 32, 3⟩

/-- A transition with all-zero state and a parameterised reward. -/
def egT (r : ℚ) : Transition := ⟨⟨0,0,0,0,0,0,0⟩, 0, r, ⟨0,0,0,0,0,0,0⟩, false⟩

/-- An agent whose epsilon `0.01004` sits just above `epsilon_min = 0.01`. -/
def egAgent : AgentState := ⟨[], [], 1004/100000⟩

/-- C3 fails on the code: starting from epsilon `0.01004 > epsilon_min`,
one `remember` call leaves epsilon at `0.01004 * 0.995 = 0.0099898`, which is
strictly below `epsilon_min = 0.01` and differs from
`max(epsilon_min, epsilon * epsilon_decay) = 0.01`. -/
theorem C3_counterexample :
    (remember egHyper [] egAgent (egT 0)).epsilon < egHyper.epsilonMin ∧
    (remember egHyper [] egAgent (egT 0)).epsilon ≠
      max egHyper.epsilonMin (egAgent.epsilon * egHyper.epsilonDecay) := by
  have hmax : max egHyper.epsilonMin (egAgent.epsilon * egHyper.epsilonDecay) =
      egHyper.epsilonMin :=
    max_eq_left (by norm_num [egHyper, egAgent])
  rw [hmax]
  constructor <;>
    norm_num [remember, decayEpsilon, egHyper, egAgent]

/-- C3 (amended). After every call to `remember`, epsilon is multiplied by
`epsilon_decay` exactly once if it was strictly greater than `epsilon_min`
(regardless of whether the batch threshold was met) and is left unchanged
otherwise. Consequently, for `0 ≤ epsilon_decay ≤ 1` and
`0 ≤ epsilon_min ≤ epsilon`, the new epsilon never exceeds the old one and
never falls below `epsilon_min * epsilon_decay` — but it can fall strictly
below `epsilon_min` itself. -/
theorem C3_epsilon_decay (p : Hyper) (mb : List Transition) (st : AgentState)
    (t : Transition)
    (h0 : 0 ≤ p.epsilonDecay) (h1 : p.epsilonDecay ≤ 1)
    (h2 : 0 ≤ p.epsilonMin) (h3 : p.epsilonMin ≤ st.epsilon) :
    ((p.epsilonMin < st.epsilon →
        (remember p mb st t).epsilon = st.epsilon * p.epsilonDecay) ∧
      (st.epsilon ≤ p.epsilonMin → (remember p mb st t).epsilon = st.epsilon)) ∧
    p.epsilonMin * p.epsilonDecay ≤ (remember p mb st t).epsilon ∧
    (remember p mb st t).epsilon ≤ st.epsilon := by
  have heps : (remember p mb st t).epsilon =
      decayEpsilon p.epsilonMin p.epsilonDecay st.epsilon := rfl
  rw [heps]
  unfold decayEpsilon
  by_cases h : p.epsilonMin < st.epsilon
  · simp only [if_pos h]
    refine ⟨⟨fun _ => trivial, fun hle => absurd h (not_lt.mpr hle)⟩, ?_, ?_⟩
    · exact mul_le_mul_of_nonneg_right h3 h0
    · have hnn : 0 ≤ st.epsilon := le_trans h2 h3
      calc st.epsilon * p.epsilonDecay ≤ st.epsilon * 1 :=
            mul_le_mul_of_nonneg_left h1 hnn
        _ = st.epsilon := mul_one _
  · simp only [if_neg h]
    push_neg at h
    refine ⟨⟨fun hlt => absurd hlt (not_lt.mpr h), fun _ => trivial⟩, ?_, le_refl _⟩
    exact le_trans (mul_le_of_le_one_right h2 h1) h3

/-- Witness for C3 (amended) at a concrete input: epsilon 1 decays to
`1 * 0.995` in one call. -/
theorem C3_epsilon_decay_witness :
    (remember egHyper [] ⟨[], [], 1⟩ (egT 0)).epsilon = 1 * (199/200 : ℚ) := by
  have h := C3_epsilon_decay egHyper [] ⟨[], [], 1⟩ (egT 0)
    (by norm_num [egHyper]) (by norm_num [egHyper])
    (by norm_num [egHyper]) (by norm_num [egHyper])
  exact h.1.1 (by norm_num [egHyper])

/-! ## C6 — replay buffer FIFO -/

theorem foldl_pushTransition_eq (cap : ℕ) (hc : 0 < cap) :
    ∀ (ts buf : List Transition), buf.length ≤ cap →
      List.foldl (pushTransition cap) buf ts =
        (buf ++ ts).drop ((buf ++ ts).length - cap)
  | [], buf, h => by
    simp only [List.foldl_nil, List.append_nil]
    have h0 : buf.length - cap = 0 := by omega
    rw [h0, List.drop_zero]
  | t :: ts, buf, h => by
    rw [List.foldl_cons]
    by_cases hfull : cap ≤ buf.length
    · have hlen : buf.length = cap := le_antisymm h hfull
      obtain ⟨b, bt, rfl⟩ : ∃ b bt, buf = b :: bt := by
        cases buf with
        | nil => simp at hlen; omega
        | cons b bt => exact ⟨b, bt, rfl⟩
      have hfull2 : cap ≤ bt.length + 1 := by simpa using hfull
      have hpush : pushTransition cap (b :: bt) t = bt ++ [t] := by
        simp [pushTransition, hfull2]
      rw [hpush]
      have ih := foldl_pushTransition_eq cap hc ts (bt ++ [t])
        (by simp at hlen ⊢; omega)
      rw [ih]
      have e1 : (bt ++ [t]) ++ ts = bt ++ t :: ts := by simp
      have e2 : (b :: bt) ++ t :: ts = b :: (bt ++ t :: ts) := by simp
      rw [e1, e2]
      have e3 : (b :: (bt ++ t :: ts)).length - cap =
          ((bt ++ t :: ts).length - cap) + 1 := by
        simp at hlen ⊢; omega
      rw [e3, List.drop_succ_cons]
    · have hpush : pushTransition cap buf t = buf ++ [t] := by
        simp [pushTransition, hfull]
      rw [hpush]
      have ih := foldl_pushTransition_eq cap hc ts (buf ++ [t])
        (by simp; omega)
      rw [ih]
      have e1 : (buf ++ [t]) ++ ts = buf ++ t :: ts := by simp
      rw [e1]

/-- C6. The replay buffer never holds more than `replay_capacity` transitions,
and after pushing a sequence of `cap + k` transitions into an empty buffer it
holds exactly the most recent `cap` of them, in insertion order (strict FIFO
eviction). -/
theorem C6_replay_buffer_fifo (cap k : ℕ) (ts : List Transition)
    (hc : 0 < cap) (hlen : ts.length = cap + k) :
    (∀ us : List Transition,
      (List.foldl (pushTransition cap) [] us).length ≤ cap) ∧
    List.foldl (pushTransition cap) [] ts = ts.drop k ∧
    (List.foldl (pushTransition cap) [] ts).length = cap := by
  have hmain : ∀ us : List Transition,
      List.foldl (pushTransition cap) [] us = us.drop (us.length - cap) := by
    intro us
    simpa using foldl_pushTransition_eq cap hc us [] (by simp)
  refine ⟨?_, ?_, ?_⟩
  · intro us
    rw [hmain us]
    simp only [List.length_drop]
    omega
  · rw [hmain ts, hlen]
    congr 1
    omega
  · rw [hmain ts]
    simp only [List.length_drop]
    omega

/-- Witness for C6: capacity 3, five pushes `t1..t5` leave `[t3, t4, t5]`
(spec §8, scenario 4). -/
theorem C6_replay_buffer_fifo_witness :
    List.foldl (pushTransition 3) [] [egT 1, egT 2, egT 3, egT 4, egT 5] =
      [egT 3, egT 4, egT 5] := by
  have h := C6_replay_buffer_fifo 3 2 [egT 1, egT 2, egT 3, egT 4, egT 5]
    (by norm_num) (by simp)
  rw [h.2.1]
  rfl

/-! ## C5 — greedy action selection -/

theorem argmaxIdx_lt_length : ∀ (l : List ℚ), l ≠ [] → argmaxIdx l < l.length
  | [], h => absurd rfl h
  | [x], _ => by simp [argmaxIdx]
  | x :: y :: t, _ => by
    by_cases h : x < rowMax (y :: t)
    · have ih := argmaxIdx_lt_length (y :: t) (by simp)
      simp only [argmaxIdx, if_pos h, List.length_cons]
      simp only [List.length_cons] at ih
      omega
    · simp [argmaxIdx, h]

theorem getD_argmaxIdx_eq_rowMax :
    ∀ (l : List ℚ), l ≠ [] → l.getD (argmaxIdx l) 0 = rowMax l
  | [], h => absurd rfl h
  | [x], _ => by simp [argmaxIdx, rowMax]
  | x :: y :: t, _ => by
    by_cases h : x < rowMax (y :: t)
    · have ih := getD_argmaxIdx_eq_rowMax (y :: t) (by simp)
      simp only [argmaxIdx, if_pos h, List.getD_cons_succ]
      rw [ih]
      show rowMax (y :: t) = rowMax (x :: y :: t)
      simp only [rowMax]
      exact (max_eq_right (le_of_lt h)).symm
    · simp only [argmaxIdx, if_neg h, List.getD_cons_zero]
      show x = rowMax (x :: y :: t)
      simp only [rowMax]
      exact (max_eq_left (not_lt.mp h)).symm

theorem getD_le_rowMax : ∀ (l : List ℚ) (j : ℕ), j < l.length → l.getD j 0 ≤ rowMax l
  | [], j, h => by simp at h
  | [x], j, h => by
    cases j with
    | zero => simp [rowMax]
    | succ n => simp at h
  | x :: y :: t, j, h => by
    cases j with
    | zero =>
      simp only [List.getD_cons_zero, rowMax]
      exact le_max_left _ _
    | succ n =>
      have ih := getD_le_rowMax (y :: t) n (by simp at h ⊢; omega)
      simp only [List.getD_cons_succ, rowMax]
      exact le_trans ih (le_max_right _ _)

theorem getD_lt_argmax_of_lt :
    ∀ (l : List ℚ) (j : ℕ), j < argmaxIdx l → l.getD j 0 < l.getD (argmaxIdx l) 0
  | [], j, h => by simp [argmaxIdx] at h
  | [x], j, h => by simp [argmaxIdx] at h
  | x :: y :: t, j, h => by
    by_cases hx : x < rowMax (y :: t)
    · simp only [argmaxIdx, if_pos hx] at h ⊢
      cases j with
      | zero =>
        simp only [List.getD_cons_zero, List.getD_cons_succ]
        rw [getD_argmaxIdx_eq_rowMax (y :: t) (by simp)]
        exact hx
      | succ n =>
        have hn : n < argmaxIdx (y :: t) := by omega
        have ih := getD_lt_argmax_of_lt (y :: t) n hn
        simpa using ih
    · simp only [argmaxIdx, if_neg hx] at h
      omega

/-- A table holding one row `[5, 0, 0]` at the key of the all-zero state. -/
def egQ : QTable := [(get_state_key ⟨0,0,0,0,0,0,0⟩, [5, 0, 0])]

/-- C5 fails as stated: with `epsilon = 0` and the state key present, two runs
of `act` on the same state and table can return different actions, because
`np.random.rand() <= epsilon` uses `<=` and the draw can be exactly `0.0`
(the run with draw `0` takes the random branch, here returning the fallback
action `2`, while a run with draw `1/2` returns the argmax `0`). -/
theorem C5_counterexample :
    qLookup egQ (get_state_key ⟨0,0,0,0,0,0,0⟩) ≠ none ∧
    act 0 0 egQ ⟨0,0,0,0,0,0,0⟩ 2 ≠ act 0 (1/2) egQ ⟨0,0,0,0,0,0,0⟩ 2 := by
  constructor
  · simp [egQ, qLookup]
  · norm_num [act, qLookup, argmaxIdx, rowMax, egQ, Option.some_ne_none]

/-- C5 (amended). With `epsilon = 0`, the state key present in the table and a
strictly positive random draw (an event of probability 1), `act` is
independent of both the draw and the fallback action, and returns the index of
the row maximum with ties broken by the lowest index: the returned index is in
range, its value is an upper bound for the whole row, and every strictly
earlier index holds a strictly smaller value. -/
theorem C5_act_greedy (q : QTable) (s : StateVec) (row : List ℚ)
    (hq : qLookup q (get_state_key s) = some row) (hrow : row ≠ []) :
    (∀ r1 fb1 r2 fb2, (0:ℚ) < r1 → (0:ℚ) < r2 →
      act 0 r1 q s fb1 = act 0 r2 q s fb2) ∧
    (∀ r fb, (0:ℚ) < r → act 0 r q s fb = argmaxIdx row) ∧
    argmaxIdx row < row.length ∧
    (∀ j, j < row.length → row.getD j 0 ≤ row.getD (argmaxIdx row) 0) ∧
    (∀ j, j < argmaxIdx row → row.getD j 0 < row.getD (argmaxIdx row) 0) := by
  have hact : ∀ r fb, (0:ℚ) < r → act 0 r q s fb = argmaxIdx row := by
    intro r fb hr
    unfold act
    have h1 : ¬(r ≤ 0 ∨ qLookup q (get_state_key s) = none) := by
      rintro (h | h)
      · exact absurd h (not_le.mpr hr)
      · rw [hq] at h
        exact Option.noConfusion h
    rw [if_neg h1, hq]
    simp
  refine ⟨fun r1 fb1 r2 fb2 h1 h2 => (hact r1 fb1 h1).trans (hact r2 fb2 h2).symm,
    hact, argmaxIdx_lt_length row hrow, ?_, getD_lt_argmax_of_lt row⟩
  intro j hj
  rw [getD_argmaxIdx_eq_rowMax row hrow]
  exact getD_le_rowMax row j hj

/-- Witness for C5 (amended): on the table `egQ` with a positive draw, `act`
returns action 0, the argmax of `[5, 0, 0]`. -/
theorem C5_act_greedy_witness : act 0 (1/2) egQ ⟨0,0,0,0,0,0,0⟩ 7 = 0 := by
  have h := C5_act_greedy egQ ⟨0,0,0,0,0,0,0⟩ [5, 0, 0]
    (by simp [egQ, qLookup]) (by simp)
  rw [h.2.1 (1/2) 7 (by norm_num)]
  norm_num [argmaxIdx, rowMax]

/-! ## C4 — position component of the state vector -/

theorem backtestStep_position (pos : ℤ) (entry : Option ℚ) (price : ℚ)
    (action : ℕ) (h : pos = 0 ∨ pos = 1) :
    (backtestStep pos entry price action).position = 0 ∨
    (backtestStep pos entry price action).position = 1 := by
  simp only [backtestStep]
  split_ifs <;> simp [h]

theorem backtestRun_position (ticks : List (ℚ × ℕ)) :
    (backtestRun ticks).1 = 0 ∨ (backtestRun ticks).1 = 1 := by
  have haux : ∀ (ts : List (ℚ × ℕ)) (pe : ℤ × Option ℚ),
      pe.1 = 0 ∨ pe.1 = 1 →
      (ts.foldl btFold pe).1 = 0 ∨ (ts.foldl btFold pe).1 = 1 := by
    intro ts
    induction ts with
    | nil => intro pe h; simpa using h
    | cons t ts ih =>
      intro pe h
      rw [List.foldl_cons]
      exact ih (btFold pe t) (backtestStep_position pe.1 pe.2 t.1 t.2 h)
  exact haux ticks ((0 : ℤ), (none : Option ℚ)) (Or.inl rfl)

/-- C4 fails as stated: in the live path the third state component is the raw
broker-reported share quantity (`int(position.qty)`), not a sign. After the
bot buys its usual `min(MAX_POSITION_SIZE, cash/price) = 100` shares, the
state built on the next tick carries `100`, which is none of -1, 0, 1. -/
theorem C4_counterexample :
    (mkStateVec 1 1 100 0 50 0 10).positionSign ≠ -1 ∧
    (mkStateVec 1 1 100 0 50 0 10).positionSign ≠ 0 ∧
    (mkStateVec 1 1 100 0 50 0 10).positionSign ≠ 1 := by
  refine ⟨?_, ?_, ?_⟩ <;> norm_num [mkStateVec]

/-- C4 (amended). In every StateVector constructed by the backtest path the
position component is 0 or 1 (flat or long — never -1, no short support);
in the live path the component equals the broker-reported share quantity,
which is not constrained to {-1, 0, 1}. -/
theorem C4_backtest_position (ticks : List (ℚ × ℕ)) (sMa lMa mom rsi vol tod : ℚ) :
    ((mkStateVec sMa lMa (backtestRun ticks).1 mom rsi vol tod).positionSign = 0 ∨
     (mkStateVec sMa lMa (backtestRun ticks).1 mom rsi vol tod).positionSign = 1) ∧
    ∀ p : ℤ, (mkStateVec sMa lMa p mom rsi vol tod).positionSign = (p : ℚ) := by
  constructor
  · rcases backtestRun_position ticks with h | h
    · left
      simp [mkStateVec, h]
    · right
      simp [mkStateVec, h]
  · intro p
    rfl

/-! ## C2 — reward on forced stop-loss / take-profit exits -/

/-- C2 fails on the code: on a stop-loss tick (entry 100, price 90,
position 1, chosen action Hold) the stop trigger condition holds, but the
reward for the tick is `-10.01`, not the bare realized P&L `-10` — line 265
of bot.py adds the inactivity penalty (and the overtrade penalty when the
bypassed action was Buy/Sell) even on forced exits. -/
theorem C2_counterexample :
    (90 : ℚ) ≤ 100 * (1 - STOP_LOSS_PERCENTAGE) ∧
    (trading_strategy_tick STOP_LOSS_PERCENTAGE TAKE_PROFIT_PERCENTAGE
        MAX_POSITION_SIZE 1 (some 100) 90 0 1000).reward ≠ ((90 : ℚ) - 100) * 1 := by
  constructor
  · norm_num [STOP_LOSS_PERCENTAGE]
  · norm_num [trading_strategy_tick, STOP_LOSS_PERCENTAGE, TAKE_PROFIT_PERCENTAGE]

/-- C2 (amended). On every tick where the position is long and the stop-loss
or take-profit trigger fires, the tick's reward equals the realized P&L
`(price - entry) * quantity` plus the unconditional inactivity penalty `-0.01`
plus the overtrade penalty `-0.05` when the (bypassed) chosen action was Buy
or Sell; the holding penalty is never applied on such a tick, and the entry
price is cleared. -/
theorem C2_forced_exit_reward (stopPct takePct : ℚ) (maxPos position : ℤ)
    (e price : ℚ) (action : ℕ) (cash : ℚ)
    (hpos : 0 < position)
    (htrig : price ≤ e * (1 - stopPct) ∨ e * (1 + takePct) ≤ price) :
    (trading_strategy_tick stopPct takePct maxPos position (some e) price action
        cash).reward =
      (price - e) * |((position : ℤ) : ℚ)| + (-(1/100)) +
        (if action = 1 ∨ action = 2 then -(1/20) else 0) ∧
    (trading_strategy_tick stopPct takePct maxPos position (some e) price action
        cash).entryAfter = none := by
  by_cases h1 : price ≤ e * (1 - stopPct)
  · constructor <;> simp [trading_strategy_tick, hpos, h1]
  · rcases htrig with h | h2
    · exact absurd h h1
    · constructor <;> simp [trading_strategy_tick, hpos, h1, h2]

/-- Witness for C2 (amended): entry 100, price 90, position 1, action Hold —
reward `-10 - 0.01`. -/
theorem C2_forced_exit_reward_witness :
    (trading_strategy_tick STOP_LOSS_PERCENTAGE TAKE_PROFIT_PERCENTAGE
        MAX_POSITION_SIZE 1 (some 100) 90 0 1000).reward =
      ((90 : ℚ) - 100) * |(((1 : ℤ)) : ℚ)| + (-(1/100)) +
        (if (0 : ℕ) = 1 ∨ (0 : ℕ) = 2 then -(1/20) else 0) :=
  (C2_forced_exit_reward STOP_LOSS_PERCENTAGE TAKE_PROFIT_PERCENTAGE
    MAX_POSITION_SIZE 1 100 90 0 1000 (by norm_num)
    (Or.inl (by norm_num [STOP_LOSS_PERCENTAGE]))).1

/-! ## C9 — learning is triggered exactly by agent Sell with a prior entry -/

/-- C9. In both the live path and the backtest path, a transition is passed to
`remember` on a tick if and only if the agent's chosen action for that tick
was Sell (2) and an entry price existed before the tick; Hold and Buy ticks —
including forced stop/take exits — never produce a stored transition. -/
theorem C9_learning_trigger :
    (∀ (stopPct takePct : ℚ) (maxPos position : ℤ) (entry : Option ℚ)
        (price : ℚ) (action : ℕ) (cash : ℚ),
      (trading_strategy_tick stopPct takePct maxPos position entry price action
          cash).remembered = true ↔ (action = 2 ∧ entry ≠ none)) ∧
    (∀ (position : ℤ) (entry : Option ℚ) (price : ℚ) (action : ℕ),
      (backtestStep position entry price action).remembered = true ↔
        (action = 2 ∧ entry ≠ none)) := by
  constructor
  · intro sp tp mp pos entry price action cash
    have h : (trading_strategy_tick sp tp mp pos entry price action cash).remembered =
        ((action == 2) && entry.isSome) := by
      cases entry <;> simp [trading_strategy_tick] <;> split_ifs <;> rfl
    rw [h]
    simp [Option.isSome_iff_ne_none]
  · intro pos entry price action
    have h : (backtestStep pos entry price action).remembered =
        ((action == 2) && entry.isSome) := rfl
    rw [h]
    simp [Option.isSome_iff_ne_none]

/-! ## C7 — state-key discretization -/

theorem roundHalfEven_eq_of_close (q : ℚ) (n : ℤ) (h : |q - n| < 1/2) :
    roundHalfEven q = n := by
  have hfl : (⌊q⌋ : ℚ) ≤ q := Int.floor_le q
  have hfu : q < ⌊q⌋ + 1 := Int.lt_floor_add_one q
  rw [abs_lt] at h
  obtain ⟨h1, h2⟩ := h
  unfold roundHalfEven
  rcases lt_trichotomy (q - ⌊q⌋) (1/2) with hr | hr | hr
  · rw [if_pos hr]
    have hc : (⌊q⌋ : ℚ) < (n : ℚ) + 1 := by linarith
    have hd : (n : ℚ) < (⌊q⌋ : ℚ) + 1 := by linarith
    have hc2 : ⌊q⌋ < n + 1 := by exact_mod_cast hc
    have hd2 : n < ⌊q⌋ + 1 := by exact_mod_cast hd
    omega
  · exfalso
    have ha : (⌊q⌋ : ℚ) < (n : ℚ) := by linarith
    have hb : (n : ℚ) < (⌊q⌋ : ℚ) + 1 := by linarith
    have ha2 : ⌊q⌋ < n := by exact_mod_cast ha
    have hb2 : n < ⌊q⌋ + 1 := by exact_mod_cast hb
    omega
  · rw [if_neg (by linarith), if_pos hr]
    have ha : (⌊q⌋ : ℚ) < (n : ℚ) := by linarith
    have hb : (n : ℚ) < (⌊q⌋ : ℚ) + 1 + 1 := by linarith
    have ha2 : ⌊q⌋ < n := by exact_mod_cast ha
    have hb2 : n < ⌊q⌋ + 1 + 1 := by exact_mod_cast hb
    omega

theorem round2_eq_of_close (x : ℚ) (n : ℤ) (h : |x - n/100| < 1/200) :
    round2 x = n/100 := by
  unfold round2
  rw [roundHalfEven_eq_of_close (x * 100) n ?_]
  have he : x * 100 - n = 100 * (x - n/100) := by ring
  rw [he, abs_mul, abs_of_pos (by norm_num : (0:ℚ) < 100)]
  calc 100 * |x - n/100| < 100 * (1/200) := by
        exact mul_lt_mul_of_pos_left h (by norm_num)
    _ = 1/2 := by norm_num

/-- The state vector `(0.004, 0, 0, 0, 0, 0, 0)`. -/
def egU : StateVec := ⟨1/250, 0, 0, 0, 0, 0, 0⟩

/-- The state vector `(0.006, 0, 0, 0, 0, 0, 0)`. -/
def egV : StateVec := ⟨3/500, 0, 0, 0, 0, 0, 0⟩

/-- The state vector `(0.002, 0, 0, 0, 0, 0, 0)`. -/
def egW : StateVec := ⟨1/500, 0, 0, 0, 0, 0, 0⟩

/-- C7 fails as stated: `(0.004, 0, ..., 0)` and `(0.006, 0, ..., 0)` differ
by `0.002 < 0.005` in every dimension, yet they round to different keys
(`0.00` vs `0.01`) because they straddle the `0.005` rounding boundary. -/
theorem C7_counterexample :
    (|egU.shortMa - egV.shortMa| < 1/200 ∧ |egU.longMa - egV.longMa| < 1/200 ∧
     |egU.positionSign - egV.positionSign| < 1/200 ∧
     |egU.momentum - egV.momentum| < 1/200 ∧ |egU.rsi - egV.rsi| < 1/200 ∧
     |egU.volatility - egV.volatility| < 1/200 ∧
     |egU.timeOfDay - egV.timeOfDay| < 1/200) ∧
    get_state_key egU ≠ get_state_key egV := by
  constructor
  · norm_num [egU, egV, abs_lt]
  · intro hEq
    have h3 : (get_state_key egU).shortMa = 0 := by
      norm_num [get_state_key, egU, round2, roundHalfEven]
    have h4 : (get_state_key egV).shortMa = 1/100 := by
      norm_num [get_state_key, egV, round2, roundHalfEven]
    rw [hEq, h4] at h3
    norm_num at h3

/-- C7 (amended). Two StateVectors whose components each lie strictly within
`0.005` of the same 2-decimal grid point (componentwise, a common grid vector
`(n1/100, ..., n7/100)`) are mapped to the same StateKey. (The original claim
— any two vectors differing by `< 0.005` in every dimension collide — fails
when the pair straddles a rounding boundary; see the counterexample.) -/
theorem C7_state_key_grid (u v : StateVec) (n1 n2 n3 n4 n5 n6 n7 : ℤ)
    (hu1 : |u.shortMa - n1/100| < 1/200) (hv1 : |v.shortMa - n1/100| < 1/200)
    (hu2 : |u.longMa - n2/100| < 1/200) (hv2 : |v.longMa - n2/100| < 1/200)
    (hu3 : |u.positionSign - n3/100| < 1/200) (hv3 : |v.positionSign - n3/100| < 1/200)
    (hu4 : |u.momentum - n4/100| < 1/200) (hv4 : |v.momentum - n4/100| < 1/200)
    (hu5 : |u.rsi - n5/100| < 1/200) (hv5 : |v.rsi - n5/100| < 1/200)
    (hu6 : |u.volatility - n6/100| < 1/200) (hv6 : |v.volatility - n6/100| < 1/200)
    (hu7 : |u.timeOfDay - n7/100| < 1/200) (hv7 : |v.timeOfDay - n7/100| < 1/200) :
    get_state_key u = get_state_key v := by
  unfold get_state_key
  simp only [StateVec.mk.injEq]
  refine ⟨?_, ?_, ?_, ?_, ?_, ?_, ?_⟩
  · rw [round2_eq_of_close _ n1 hu1, round2_eq_of_close _ n1 hv1]
  · rw [round2_eq_of_close _ n2 hu2, round2_eq_of_close _ n2 hv2]
  · rw [round2_eq_of_close _ n3 hu3, round2_eq_of_close _ n3 hv3]
  · rw [round2_eq_of_close _ n4 hu4, round2_eq_of_close _ n4 hv4]
  · rw [round2_eq_of_close _ n5 hu5, round2_eq_of_close _ n5 hv5]
  · rw [round2_eq_of_close _ n6 hu6, round2_eq_of_close _ n6 hv6]
  · rw [round2_eq_of_close _ n7 hu7, round2_eq_of_close _ n7 hv7]

/-- Witness for C7 (amended): `0.004` and `0.002` both lie within `0.005` of
the grid point `0.00`, so they share a key. -/
theorem C7_state_key_grid_witness : get_state_key egU = get_state_key egW :=
  C7_state_key_grid egU egW 0 0 0 0 0 0 0
    (by norm_num [egU, abs_lt]) (by norm_num [egW, abs_lt]) (by norm_num [egU, abs_lt]) (by norm_num [egW, abs_lt])
    (by norm_num [egU, abs_lt]) (by norm_num [egW, abs_lt]) (by norm_num [egU, abs_lt]) (by norm_num [egW, abs_lt])
    (by norm_num [egU, abs_lt]) (by norm_num [egW, abs_lt]) (by norm_num [egU, abs_lt]) (by norm_num [egW, abs_lt])
    (by norm_num [egU, abs_lt]) (by norm_num [egW, abs_lt])

/-! ## C8 — volatility NaN at exactly `window` rows -/

/-- C8: the code violates the "never NaN" invariant at exactly `window` rows.
With 10 rows the guard `len(data) < window` does not fire, but
`pct_change()` starts with a NaN, so the final rolling window of width 10
contains only 9 valid observations and the rolling std is NaN (`none`).
With fewer than 10 rows the documented neutral default `0.0` is returned, and
with 11 identical closes the rolling std is defined (`0.0`), as the claim
describes. -/
theorem C8_volatility_nan_at_window :
    calculate_volatility 10 (List.replicate 10 1) = none ∧
    calculate_volatility 10 (List.replicate 9 1) = some 0 ∧
    calculate_volatility 10 (List.replicate 11 1) = some 0 := by
  refine ⟨?_, ?_, ?_⟩
  · norm_num [calculate_volatility, rollingStdSqLast, pct_change, seqOptions,
      List.replicate]
  · norm_num [calculate_volatility]
  · norm_num [calculate_volatility, rollingStdSqLast, pct_change, seqOptions,
      sampleVariance, List.replicate]

/-! ## C10 — construction loads only the fixed model path -/

/-- C10. At construction the agent calls `load()` with `versioned` left at its
default `False`: the table read depends only on the filesystem's content at
the fixed `model_path` (so timestamped snapshots written by `save`, whose
`versioned` default is `True`, are never consulted), and if the fixed path
does not exist the table stays empty. `save(versioned=True)` on the default
path `q_agent.pkl` writes to the distinct timestamp-suffixed path. -/
theorem C10_init_fixed_path :
    (∀ (fs : FileSystem) (mp : String) (vf : List String),
      fs mp = none → initQTable fs mp vf = []) ∧
    (∀ (fs1 fs2 : FileSystem) (mp : String) (vf1 vf2 : List String),
      fs1 mp = fs2 mp → initQTable fs1 mp vf1 = initQTable fs2 mp vf2) ∧
    load_default_versioned = false ∧
    save_default_versioned = true ∧
    savePath "q_agent.pkl" "20240101_120000" save_default_versioned =
      "q_agent_20240101_120000.pkl" ∧
    savePath "q_agent.pkl" "20240101_120000" save_default_versioned ≠
      "q_agent.pkl" := by
  refine ⟨?_, ?_, rfl, rfl, ?_, ?_⟩
  · intro fs mp vf h
    simp [initQTable, load, load_default_versioned, h]
  · intro fs1 fs2 mp vf1 vf2 h
    simp only [initQTable, load, load_default_versioned, Bool.false_eq_true,
      if_false]
    rw [h]
  · simp [savePath, save_default_versioned, pyReplace]
  · simp [savePath, save_default_versioned, pyReplace]

/-- Witness for C10: on a filesystem with no files, a freshly constructed
agent has an empty table. -/
theorem C10_init_fixed_path_witness :
    initQTable (fun _ => none) "q_agent.pkl" [] = [] :=
  C10_init_fixed_path.1 (fun _ => none) "q_agent.pkl" [] rfl

end TradingBot
